import Mathlib

/-!
Verification of the pick-your-go template cache and identity-rewriting
engine.  Strings manipulated by the rewriter are modelled as `List Char`;
time instants and durations are modelled as `Int` nanoseconds, matching
Go's `time.Duration`/`time.Time` arithmetic.
-/

set_option maxRecDepth 10000

/-! ## Basic string operations (Go `strings` package) -/

/-- Go `unicode.IsSpace` restricted to the Latin-1 range, which is all the
trimming in this repository can encounter. -/
def isSpaceGo (c : Char) : Bool :=
  c = ' ' || c = '\t' || c = '\n' || c = Char.ofNat 11 || c = Char.ofNat 12 ||
  c = '\r' || c = Char.ofNat 133 || c = Char.ofNat 160

/-- Go `strings.TrimSpace`. -/
def trimGo (l : List Char) : List Char :=
  ((l.dropWhile isSpaceGo).reverse.dropWhile isSpaceGo).reverse

/-- Helper for splitting on newlines: returns the first line and the list of
remaining lines. -/
def splitNlAux : List Char → List Char × List (List Char)
  | [] => ([], [])
  | c :: rest =>
    let p := splitNlAux rest
    if c = '\n' then ([], p.1 :: p.2) else (c :: p.1, p.2)

/-- Go `strings.Split(s, "\n")` (the repository's `splitLines`). -/
def splitNl (s : List Char) : List (List Char) :=
  (splitNlAux s).1 :: (splitNlAux s).2

/-- Go `strings.Join(lines, "\n")`. -/
def joinLines : List (List Char) → List Char
  | [] => []
  | [l] => l
  | l :: l2 :: ls => l ++ '\n' :: joinLines (l2 :: ls)

/-- Go `strings.TrimPrefix`. -/
def trimPrefixL (pre s : List Char) : List Char :=
  if pre.isPrefixOf s then s.drop pre.length else s

/-- Go `strings.Replace(s, old, new, 1)`: replace the first occurrence of
`old` (for empty `old`, Go inserts `new` at the start). -/
def replaceFirst : List Char → List Char → List Char → List Char
  | s, old, new =>
    if old.isPrefixOf s then new ++ s.drop old.length
    else
      match s with
      | [] => []
      | c :: rest => c :: replaceFirst rest old new

/-- Split a line at its first double quote: `l = before ++ quote :: after`. -/
def splitAtQuote : List Char → Option (List Char × List Char)
  | [] => none
  | c :: rest =>
    if c = '"' then some ([], rest)
    else (splitAtQuote rest).map (fun p => (c :: p.1, p.2))

/-! ## Sanity lemmas about the basic operations -/

theorem splitAtQuote_eq : ∀ (l a b : List Char),
    splitAtQuote l = some (a, b) → l = a ++ '"' :: b := by
  intro l
  induction l with
  | nil => intro a b h; simp [splitAtQuote] at h
  | cons c rest ih =>
    intro a b h
    by_cases hc : c = '"'
    · subst hc
      simp [splitAtQuote] at h
      obtain ⟨h1, h2⟩ := h
      subst h1; subst h2; rfl
    · rcases hsp : splitAtQuote rest with _ | ⟨p1, p2⟩
      · simp [splitAtQuote, hc, hsp] at h
      · simp only [splitAtQuote, if_neg hc, hsp, Option.map_some', Option.some.injEq,
          Prod.mk.injEq] at h
        obtain ⟨h1, h2⟩ := h
        subst h1; subst h2
        rw [List.cons_append]
        exact congrArg (c :: ·) (ih p1 p2 hsp)

theorem splitAtQuote_none : ∀ (l : List Char), '"' ∉ l → splitAtQuote l = none := by
  intro l
  induction l with
  | nil => intro _; rfl
  | cons c rest ih =>
    intro h
    have hc : ¬ c = '"' := fun hq => h (hq ▸ List.mem_cons_self c rest)
    have hr : '"' ∉ rest := fun hm => h (List.mem_cons_of_mem c hm)
    simp [splitAtQuote, hc, ih hr]

theorem joinLines_splitNl (s : List Char) : joinLines (splitNl s) = s := by
  induction s with
  | nil => rfl
  | cons c rest ih =>
    by_cases hc : c = '\n'
    · subst hc
      simp only [splitNl, splitNlAux, if_pos rfl]
      simpa [joinLines] using ih
    · simp only [splitNl, splitNlAux, if_neg hc]
      rcases h2 : (splitNlAux rest).2 with _ | ⟨l2, ls⟩
      · simp only [joinLines]
        have := ih
        simpa [splitNl, h2, joinLines] using this
      · simp only [joinLines]
        have := ih
        simp only [splitNl, h2, joinLines] at this
        simpa using this

theorem splitNl_no_newline (s : List Char) :
    '\n' ∉ (splitNlAux s).1 ∧ ∀ l ∈ (splitNlAux s).2, '\n' ∉ l := by
  induction s with
  | nil => exact ⟨by simp [splitNlAux], by simp [splitNlAux]⟩
  | cons c rest ih =>
    by_cases hc : c = '\n'
    · subst hc
      refine ⟨by simp [splitNlAux], ?_⟩
      intro l hl
      simp only [splitNlAux, if_pos rfl] at hl
      rcases List.mem_cons.mp hl with h | h
      · exact h ▸ ih.1
      · exact ih.2 l h
    · refine ⟨?_, ?_⟩
      · simp only [splitNlAux, if_neg hc]
        intro hm
        rcases List.mem_cons.mp hm with h | h
        · exact hc h.symm
        · exact ih.1 h
      · simp only [splitNlAux, if_neg hc]
        exact ih.2

theorem splitNlAux_append (a b : List Char) (ha : '\n' ∉ a) :
    splitNlAux (a ++ '\n' :: b) = (a, (splitNlAux b).1 :: (splitNlAux b).2) := by
  induction a with
  | nil => simp [splitNlAux]
  | cons c rest ih =>
    have hc : ¬ c = '\n' := fun h => ha (h ▸ List.mem_cons_self c rest)
    have hr : '\n' ∉ rest := fun h => ha (List.mem_cons_of_mem c h)
    simp [splitNlAux, hc, ih hr]

theorem splitNlAux_pure (a : List Char) (ha : '\n' ∉ a) :
    splitNlAux a = (a, []) := by
  induction a with
  | nil => rfl
  | cons c rest ih =>
    have hc : ¬ c = '\n' := fun h => ha (h ▸ List.mem_cons_self c rest)
    have hr : '\n' ∉ rest := fun h => ha (List.mem_cons_of_mem c h)
    simp [splitNlAux, hc, ih hr]

theorem splitNl_joinLines : ∀ (ls : List (List Char)), ls ≠ [] →
    (∀ l ∈ ls, '\n' ∉ l) → splitNl (joinLines ls) = ls := by
  intro ls
  induction ls with
  | nil => intro h; exact absurd rfl h
  | cons l rest ih =>
    intro _ hnl
    rcases rest with _ | ⟨l2, ls2⟩
    · have : '\n' ∉ l := hnl l (List.mem_cons_self l [])
      simp [joinLines, splitNl, splitNlAux_pure l this]
    · have hl : '\n' ∉ l := hnl l (List.mem_cons_self _ _)
      have hrest : ∀ x ∈ l2 :: ls2, '\n' ∉ x := fun x hx => hnl x (List.mem_cons_of_mem l hx)
      have := ih (by simp) hrest
      simp only [joinLines, splitNl]
      rw [splitNlAux_append l (joinLines (l2 :: ls2)) hl]
      simp only [splitNl] at this
      exact congrArg (l :: ·) this

/-! ## IdentityRewriter: source embedding of `internal/generator/layered.go` -/

/-- One step of the quote scanner of `replaceModulePathInLine`, with fuel: at
each quote pair, a quoted value equal to `oldModule` or starting with
`oldModule` plus a path separator has its first `oldModule` occurrence
replaced (Go `strings.Replace(.., 1)`), and scanning resumes just past the
inserted text and the closing quote. -/
def replLineGo (oldM newM : List Char) : Nat → List Char → List Char
  | 0, line => line
  | fuel + 1, line =>
    match splitAtQuote line with
    | none => line
    | some (pre, rest) =>
      match splitAtQuote rest with
      | none => line
      | some (mid, post) =>
        let mid2 := if mid = oldM ∨ (oldM ++ [ '/' ]).isPrefixOf mid = true
                    then replaceFirst mid oldM newM else mid
        pre ++ '"' :: mid2 ++ '"' :: replLineGo oldM newM fuel post

/-- `replaceModulePathInLine` from `layered.go`. -/
def replaceModulePathInLine (line oldM newM : List Char) : List Char :=
  replLineGo oldM newM line.length line

/-- The loop of `replaceImportPaths`: walk the lines tracking whether the
cursor is inside an `import (` … `)` block. -/
def replaceImportPathsLines (oldM newM : List Char) : Bool → List (List Char) → List (List Char)
  | _, [] => []
  | inBlock, line :: rest =>
    if trimGo line = "import (".toList then
      line :: replaceImportPathsLines oldM newM true rest
    else if inBlock = true ∧ trimGo line = [ ')' ] then
      line :: replaceImportPathsLines oldM newM false rest
    else if "import ".toList.isPrefixOf (trimGo line) = true ∨ inBlock = true then
      replaceModulePathInLine line oldM newM :: replaceImportPathsLines oldM newM inBlock rest
    else
      line :: replaceImportPathsLines oldM newM inBlock rest

/-- `replaceImportPaths` from `layered.go`. -/
def replaceImportPaths (content oldM newM : List Char) : List Char :=
  joinLines (replaceImportPathsLines oldM newM false (splitNl content))

/-- `updateGoModule` from `layered.go`, content level: rewrite the first line
with prefix `module ` to `module <modulePath>` (Go `break` after the first). -/
def setFirstModuleLine (modulePath : List Char) : List (List Char) → List (List Char)
  | [] => []
  | l :: ls =>
    if "module ".toList.isPrefixOf l = true
    then ("module ".toList ++ modulePath) :: ls
    else l :: setFirstModuleLine modulePath ls

/-- Content transformation performed by `updateGoModule`. -/
def updateGoModuleContent (content modulePath : List Char) : List Char :=
  joinLines (setFirstModuleLine modulePath (splitNl content))

/-- The line scan of `extractOriginalModulePath`. -/
def extractFromLines : List (List Char) → Except (List Char) (List Char)
  | [] => .error "no module declaration found in go.mod".toList
  | l :: ls =>
    if "module ".toList.isPrefixOf l = true
    then .ok (trimGo (trimPrefixL "module ".toList l))
    else extractFromLines ls

/-- `extractOriginalModulePath` from `layered.go`, content level. -/
def extractOriginalModulePathContent (content : List Char) : Except (List Char) (List Char) :=
  extractFromLines (splitNl content)

/-! ## Spec-modelled rewrite (§4.4 import-recognition algorithm)

These definitions follow the spec's words, to be compared with the source
embedding above: a candidate line is a single-line import statement or a line
between the block opener and the block closer; on a candidate line every
quoted value equal to `oldIdentity`, or starting with `oldIdentity` followed
by a path separator, has that prefix replaced by `newIdentity` with the
remainder kept verbatim. -/

/-- Modelled from the spec: per-quote rewrite rule of §4.4 — "replace the
`oldIdentity` prefix with `newIdentity`, preserving the remainder verbatim". -/
def specQuoteRewrite (oldM newM mid : List Char) : List Char :=
  if mid = oldM ∨ (oldM ++ [ '/' ]).isPrefixOf mid = true
  then newM ++ mid.drop oldM.length else mid

/-- Modelled from the spec: paired-quote scanning, left to right, non-greedy,
resuming just past newly inserted text. -/
def specLineGo (oldM newM : List Char) : Nat → List Char → List Char
  | 0, line => line
  | fuel + 1, line =>
    match splitAtQuote line with
    | none => line
    | some (pre, rest) =>
      match splitAtQuote rest with
      | none => line
      | some (mid, post) =>
        pre ++ '"' :: specQuoteRewrite oldM newM mid ++ '"' :: specLineGo oldM newM fuel post

/-- Modelled from the spec: full rewrite of one candidate line. -/
def specRewriteLine (line oldM newM : List Char) : List Char :=
  specLineGo oldM newM line.length line

/-- Modelled from the spec: line-by-line state machine; a line is a candidate
iff its trimmed form begins with the single-line import keyword or the cursor
is inside a block (and the line is not the closer itself). -/
def specRewriteLinesGo (oldM newM : List Char) : Bool → List (List Char) → List (List Char)
  | _, [] => []
  | inBlock, line :: rest =>
    (if "import ".toList.isPrefixOf (trimGo line) = true ∨
        (inBlock = true ∧ trimGo line ≠ [ ')' ] ∧ trimGo line ≠ "import (".toList)
     then specRewriteLine line oldM newM else line) ::
      specRewriteLinesGo oldM newM
        (if trimGo line = "import (".toList then true
         else if trimGo line = [ ')' ] then false else inBlock) rest

/-- Modelled from the spec: the whole per-file rewrite of §4.4. -/
def specRewriteImports (content oldM newM : List Char) : List Char :=
  joinLines (specRewriteLinesGo oldM newM false (splitNl content))

/-! ## Lemmas: the source rewriter agrees with the spec-modelled rewriter -/

theorem prefix_isPrefixOf_true {l1 l2 : List Char} (h : l1 <+: l2) :
    l1.isPrefixOf l2 = true :=
  List.isPrefixOf_iff_prefix.mpr h

theorem replaceFirst_of_guard (mid oldM newM : List Char)
    (h : mid = oldM ∨ (oldM ++ [ '/' ]).isPrefixOf mid = true) :
    replaceFirst mid oldM newM = newM ++ mid.drop oldM.length := by
  have hpre : oldM.isPrefixOf mid = true := by
    rcases h with h | h
    · subst h; exact prefix_isPrefixOf_true (List.prefix_refl _)
    · exact prefix_isPrefixOf_true
        ((List.prefix_append oldM [ '/' ]).trans (List.isPrefixOf_iff_prefix.mp h))
  rw [replaceFirst.eq_def]
  simp [hpre]

theorem replLineGo_eq_specLineGo (oldM newM : List Char) :
    ∀ (fuel : Nat) (line : List Char),
      replLineGo oldM newM fuel line = specLineGo oldM newM fuel line := by
  intro fuel
  induction fuel with
  | zero => intro line; rfl
  | succ n ih =>
    intro line
    rw [replLineGo, specLineGo]
    rcases hq1 : splitAtQuote line with _ | ⟨pre, rest⟩
    · simp only [hq1]
    · simp only [hq1]
      rcases hq2 : splitAtQuote rest with _ | ⟨mid, post⟩
      · simp only [hq2]
      · simp only [hq2]
        by_cases hg : mid = oldM ∨ (oldM ++ [ '/' ]).isPrefixOf mid = true
        · rw [if_pos hg, replaceFirst_of_guard mid oldM newM hg, ih post]
          simp only [specQuoteRewrite, if_pos hg]
        · rw [if_neg hg, ih post]
          simp only [specQuoteRewrite, if_neg hg]

theorem replaceModulePathInLine_eq_spec (line oldM newM : List Char) :
    replaceModulePathInLine line oldM newM = specRewriteLine line oldM newM :=
  replLineGo_eq_specLineGo oldM newM line.length line

theorem specLineGo_no_quote (oldM newM : List Char) (fuel : Nat) (line : List Char)
    (h : '"' ∉ line) : specLineGo oldM newM fuel line = line := by
  cases fuel with
  | zero => rfl
  | succ n => rw [specLineGo, splitAtQuote_none line h]

theorem specRewriteLine_no_quote (line oldM newM : List Char) (h : '"' ∉ line) :
    specRewriteLine line oldM newM = line :=
  specLineGo_no_quote oldM newM line.length line h

theorem mem_trimGo {c : Char} {l : List Char} (hm : c ∈ l) (hs : isSpaceGo c = false) :
    c ∈ trimGo l := by
  have step : ∀ (x : List Char), c ∈ x → c ∈ x.dropWhile isSpaceGo := by
    intro x hx
    have hsplit := List.takeWhile_append_dropWhile (p := isSpaceGo) (l := x)
    rcases List.mem_append.mp (hsplit ▸ hx) with h | h
    · have := List.mem_takeWhile_imp h
      rw [hs] at this
      exact absurd this (by simp)
    · exact h
  unfold trimGo
  exact List.mem_reverse.mpr (step _ (List.mem_reverse.mpr (step _ hm)))

theorem no_quote_of_trim (line t : List Char) (ht : trimGo line = t) (hq : '"' ∉ t) :
    '"' ∉ line := by
  intro hm
  exact hq (ht ▸ mem_trimGo hm (by decide))

theorem replaceImportPathsLines_eq_spec (oldM newM : List Char) :
    ∀ (ls : List (List Char)) (inBlock : Bool),
      replaceImportPathsLines oldM newM inBlock ls =
        specRewriteLinesGo oldM newM inBlock ls := by
  intro ls
  induction ls with
  | nil => intro inBlock; rfl
  | cons line rest ih =>
    intro inBlock
    rw [replaceImportPathsLines, specRewriteLinesGo]
    by_cases hop : trimGo line = "import (".toList
    · have hq : '"' ∉ line := no_quote_of_trim line _ hop (by decide)
      have hcand : "import ".toList.isPrefixOf (trimGo line) = true ∨
          (inBlock = true ∧ trimGo line ≠ [ ')' ] ∧ trimGo line ≠ "import (".toList) :=
        Or.inl (by rw [hop]; decide)
      rw [if_pos hop, if_pos hcand, if_pos hop,
        specRewriteLine_no_quote line oldM newM hq, ih true]
    · rw [if_neg hop]
      by_cases hcl : trimGo line = [ ')' ]
      · have hnp : ¬ ("import ".toList.isPrefixOf (trimGo line) = true) := by
          rw [hcl]; decide
        have hncand : ¬ ("import ".toList.isPrefixOf (trimGo line) = true ∨
            (inBlock = true ∧ trimGo line ≠ [ ')' ] ∧ trimGo line ≠ "import (".toList)) := by
          rintro (h | ⟨_, h, _⟩)
          · exact hnp h
          · exact h hcl
        rw [if_neg hncand, if_neg hop, if_pos hcl]
        cases inBlock with
        | true => rw [if_pos ⟨rfl, hcl⟩, ih false]
        | false =>
          rw [if_neg (by rintro ⟨h, _⟩; exact Bool.false_ne_true h),
            if_neg (by rintro (h | h); exacts [hnp h, Bool.false_ne_true h]), ih false]
      · have hnc2 : ¬ (inBlock = true ∧ trimGo line = [ ')' ]) := by
          rintro ⟨_, h⟩; exact hcl h
        rw [if_neg hnc2, if_neg hop, if_neg hcl]
        by_cases hcand : "import ".toList.isPrefixOf (trimGo line) = true ∨ inBlock = true
        · have hcand2 : "import ".toList.isPrefixOf (trimGo line) = true ∨
              (inBlock = true ∧ trimGo line ≠ [ ')' ] ∧ trimGo line ≠ "import (".toList) := by
            rcases hcand with h | h
            · exact Or.inl h
            · exact Or.inr ⟨h, hcl, hop⟩
          rw [if_pos hcand, if_pos hcand2, replaceModulePathInLine_eq_spec, ih inBlock]
        · have hcand2 : ¬ ("import ".toList.isPrefixOf (trimGo line) = true ∨
              (inBlock = true ∧ trimGo line ≠ [ ')' ] ∧ trimGo line ≠ "import (".toList)) := by
            rintro (h | ⟨h, _, _⟩)
            · exact hcand (Or.inl h)
            · exact hcand (Or.inr h)
          rw [if_neg hcand, if_neg hcand2, ih inBlock]

/-! ## Claim C1 -/

/-- C1: for every file content and every pair of non-empty distinct
identities, `replaceImportPaths` performs exactly the rewrite described by
the spec and changes nothing else: a quoted substring is rewritten iff it
lies on a candidate line (single-line import, or inside an `import (` … `)`
block) and equals `oldIdentity` or starts with `oldIdentity` plus `/`; on a
match the `oldIdentity` prefix is replaced by `newIdentity` with the
remainder verbatim; every matching quoted value on a candidate line is
rewritten; every other byte is preserved.  Stated as: the source embedding
coincides with the spec-modelled rewrite. -/
theorem replaceImportPaths_matches_spec (content oldM newM : List Char)
    (h1 : oldM ≠ []) (h2 : newM ≠ []) (h3 : oldM ≠ newM) :
    replaceImportPaths content oldM newM = specRewriteImports content oldM newM := by
  unfold replaceImportPaths specRewriteImports
  rw [replaceImportPathsLines_eq_spec]

/-- Witness for C1 at the end-to-end scenario of spec §8. -/
theorem replaceImportPaths_matches_spec_witness :
    replaceImportPaths
      "import (\n\t\"fmt\"\n\t\"github.com/old/module/internal/config\"\n\t\"github.com/gin-gonic/gin\"\n)".toList
      "github.com/old/module".toList "github.com/new/module".toList
    = specRewriteImports
      "import (\n\t\"fmt\"\n\t\"github.com/old/module/internal/config\"\n\t\"github.com/gin-gonic/gin\"\n)".toList
      "github.com/old/module".toList "github.com/new/module".toList :=
  replaceImportPaths_matches_spec _ _ _ (by decide) (by decide) (by decide)

/-! ## Lemmas about the manifest rewrite -/

theorem dropWhile_eq_self_of_none {p : Char → Bool} {l : List Char}
    (h : ∀ c ∈ l, p c = false) : l.dropWhile p = l := by
  cases l with
  | nil => rfl
  | cons c rest => simp [List.dropWhile_cons, h c (List.mem_cons_self _ _)]

theorem trimGo_no_space (l : List Char) (h : ∀ c ∈ l, isSpaceGo c = false) :
    trimGo l = l := by
  unfold trimGo
  rw [dropWhile_eq_self_of_none h,
    dropWhile_eq_self_of_none (fun c hc => h c (List.mem_reverse.mp hc)),
    List.reverse_reverse]

theorem setFirst_decomp (newId : List Char) (ls : List (List Char))
    (h : ls.any (fun l => "module ".toList.isPrefixOf l) = true) :
    ∃ pre line post, ls = pre ++ line :: post ∧
      (∀ l ∈ pre, "module ".toList.isPrefixOf l = false) ∧
      "module ".toList.isPrefixOf line = true ∧
      setFirstModuleLine newId ls = pre ++ ("module ".toList ++ newId) :: post := by
  induction ls with
  | nil => simp at h
  | cons l tail ih =>
    by_cases hl : "module ".toList.isPrefixOf l = true
    · exact ⟨[], l, tail, rfl, by simp, hl, by rw [setFirstModuleLine, if_pos hl]; rfl⟩
    · have h2 : tail.any (fun l => "module ".toList.isPrefixOf l) = true := by
        have h3 := h
        simp only [List.any_cons, Bool.or_eq_true] at h3
        rcases h3 with h3 | h3
        · exact absurd h3 hl
        · exact h3
      obtain ⟨pre, line, post, e1, e2, e3, e4⟩ := ih h2
      refine ⟨l :: pre, line, post, by rw [List.cons_append, e1], ?_, e3, ?_⟩
      · intro x hx
        rcases List.mem_cons.mp hx with hx | hx
        · subst hx
          cases hb : "module ".toList.isPrefixOf x with
          | false => rfl
          | true => exact absurd hb hl
        · exact e2 x hx
      · rw [setFirstModuleLine, if_neg hl, e4, List.cons_append]

theorem setFirst_no_hit (newId : List Char) (ls : List (List Char))
    (h : ∀ l ∈ ls, "module ".toList.isPrefixOf l = false) :
    setFirstModuleLine newId ls = ls := by
  induction ls with
  | nil => rfl
  | cons l tail ih =>
    have hl : ¬ ("module ".toList.isPrefixOf l = true) := by
      rw [h l (List.mem_cons_self _ _)]; simp
    rw [setFirstModuleLine, if_neg hl, ih (fun x hx => h x (List.mem_cons_of_mem l hx))]

theorem extract_append_none (pre rest : List (List Char))
    (h : ∀ l ∈ pre, "module ".toList.isPrefixOf l = false) :
    extractFromLines (pre ++ rest) = extractFromLines rest := by
  induction pre with
  | nil => rfl
  | cons l tail ih =>
    have hl : ¬ ("module ".toList.isPrefixOf l = true) := by
      rw [h l (List.mem_cons_self _ _)]; simp
    rw [List.cons_append, extractFromLines, if_neg hl,
      ih (fun x hx => h x (List.mem_cons_of_mem l hx))]

theorem splitNl_mem_no_nl (s : List Char) : ∀ l ∈ splitNl s, '\n' ∉ l := by
  intro l hl
  rcases List.mem_cons.mp hl with h | h
  · exact h ▸ (splitNl_no_newline s).1
  · exact (splitNl_no_newline s).2 l h

/-! ## Claim C8 -/

/-- C8: for any manifest content with at least one `module ` line,
`updateGoModule` replaces only the first such line with
`module <newIdentity>`; every other line, including any later `module `
lines, and the line order are preserved byte for byte. -/
theorem updateGoModule_frame (content newId : List Char)
    (hmod : (splitNl content).any (fun l => "module ".toList.isPrefixOf l) = true) :
    ∃ pre line post,
      splitNl content = pre ++ line :: post ∧
      (∀ l ∈ pre, "module ".toList.isPrefixOf l = false) ∧
      "module ".toList.isPrefixOf line = true ∧
      updateGoModuleContent content newId =
        joinLines (pre ++ ("module ".toList ++ newId) :: post) := by
  obtain ⟨pre, line, post, e1, e2, e3, e4⟩ := setFirst_decomp newId (splitNl content) hmod
  exact ⟨pre, line, post, e1, e2, e3, by rw [updateGoModuleContent, e4]⟩

/-- Witness for C8 on a manifest with two `module ` lines. -/
theorem updateGoModule_frame_witness :
    ∃ pre line post,
      splitNl "module a\nrequire x v1\nmodule b".toList = pre ++ line :: post ∧
      (∀ l ∈ pre, "module ".toList.isPrefixOf l = false) ∧
      "module ".toList.isPrefixOf line = true ∧
      updateGoModuleContent "module a\nrequire x v1\nmodule b".toList "n/m".toList =
        joinLines (pre ++ ("module ".toList ++ "n/m".toList) :: post) :=
  updateGoModule_frame _ _ (by decide)

/-! ## Claim C5 -/

/-- C5: round trip — for a manifest containing a `module ` line and a
whitespace-free non-empty identity, extracting right after setting returns
exactly the new identity. -/
theorem extract_after_set (content newId : List Char)
    (hmod : (splitNl content).any (fun l => "module ".toList.isPrefixOf l) = true)
    (hws : ∀ c ∈ newId, isSpaceGo c = false)
    (hne : newId ≠ []) :
    extractOriginalModulePathContent (updateGoModuleContent content newId) =
      Except.ok newId := by
  obtain ⟨pre, line, post, e1, e2, e3, e4⟩ := setFirst_decomp newId (splitNl content) hmod
  rw [extractOriginalModulePathContent, updateGoModuleContent, e4]
  have hnl : ∀ l ∈ pre ++ ("module ".toList ++ newId) :: post, '\n' ∉ l := by
    intro l hl
    rcases List.mem_append.mp hl with h | h
    · exact splitNl_mem_no_nl content l (e1 ▸ List.mem_append_left _ h)
    · rcases List.mem_cons.mp h with h | h
      · subst h
        intro hmem
        rcases List.mem_append.mp hmem with h | h
        · exact absurd h (by decide)
        · have := hws _ h
          simp [isSpaceGo] at this
      · exact splitNl_mem_no_nl content l
          (e1 ▸ List.mem_append_right _ (List.mem_cons_of_mem _ h))
  rw [splitNl_joinLines _ (by simp) hnl, extract_append_none pre _ e2]
  have hp : "module ".toList.isPrefixOf ("module ".toList ++ newId) = true :=
    prefix_isPrefixOf_true (List.prefix_append _ _)
  rw [extractFromLines, if_pos hp]
  unfold trimPrefixL
  rw [if_pos hp, List.drop_left, trimGo_no_space newId hws]

/-- Witness for C5. -/
theorem extract_after_set_witness :
    extractOriginalModulePathContent
      (updateGoModuleContent "module old/mod\ngo 1.21\n".toList "github.com/u/p".toList) =
      Except.ok "github.com/u/p".toList :=
  extract_after_set _ _ (by decide) (by decide) (by decide)

/-! ## Claim C10 -/

/-- C10: for a manifest with no `module ` line, `updateGoModule` succeeds and
writes the content back unchanged, while `extractOriginalModulePath` on the
same content fails with "no module declaration found in go.mod". -/
theorem updateGoModule_no_module_line (content newId : List Char)
    (h : ∀ l ∈ splitNl content, "module ".toList.isPrefixOf l = false) :
    updateGoModuleContent content newId = content ∧
    extractOriginalModulePathContent content =
      Except.error "no module declaration found in go.mod".toList := by
  constructor
  · rw [updateGoModuleContent, setFirst_no_hit newId _ h, joinLines_splitNl]
  · rw [extractOriginalModulePathContent]
    have := extract_append_none (splitNl content) [] h
    rw [List.append_nil] at this
    rw [this]
    rfl

/-- Witness for C10. -/
theorem updateGoModule_no_module_line_witness :
    updateGoModuleContent "go 1.21\nrequire x v1".toList "n/m".toList
       = "go 1.21\nrequire x v1".toList ∧
    extractOriginalModulePathContent "go 1.21\nrequire x v1".toList =
      Except.error "no module declaration found in go.mod".toList :=
  updateGoModule_no_module_line _ _ (by decide)

/-! ## Tree-wide rewrite: `updateImportPaths` / `updateImportPathsInFile` -/

/-- A filesystem entry visited by `filepath.Walk`, with injected read/write
faults standing for the I/O errors of `os.ReadFile`/`os.WriteFile`. -/
structure WalkEntry where
  path : List Char
  isDir : Bool
  readErr : Bool
  writeErr : Bool
  content : List Char
deriving DecidableEq

/-- Go `filepath.Base` for the slash-separated paths produced by a walk. -/
def baseName (p : List Char) : List Char :=
  (p.reverse.takeWhile (fun c => c != '/')).reverse

/-- `updateImportPathsInFile` from `layered.go`: read, rewrite, write back
only when the content changed. -/
def updateImportPathsInFile (oldM newM : List Char) (f : WalkEntry) :
    Except (List Char) WalkEntry :=
  if f.readErr then Except.error "failed to read file".toList
  else if replaceImportPaths f.content oldM newM ≠ f.content then
    if f.writeErr then Except.error "failed to write file".toList
    else Except.ok { f with content := replaceImportPaths f.content oldM newM }
  else Except.ok f

/-- Directory names skipped by the walk callback (`vendor`, `.git`, hidden). -/
def skipDirName (b : List Char) : Bool :=
  b = "vendor".toList || b = ".git".toList || [ '.' ].isPrefixOf b

/-- Whether a path lies under one of the subtrees pruned via `SkipDir`. -/
def underSkipped (skips : List (List Char)) (p : List Char) : Bool :=
  skips.any (fun d => (d ++ [ '/' ]).isPrefixOf p)

/-- The `filepath.Walk` loop of `updateImportPaths`: per-file failures become
warnings and the walk continues.  Returns the resulting entries and the
warnings printed. -/
def walkEntries (oldM newM : List Char) :
    List WalkEntry → List (List Char) → List WalkEntry × List (List Char)
  | [], _ => ([], [])
  | e :: rest, skips =>
    if underSkipped skips e.path = true then
      ((e :: (walkEntries oldM newM rest skips).1), (walkEntries oldM newM rest skips).2)
    else if e.isDir = true then
      (if skipDirName (baseName e.path) = true then
        ((e :: (walkEntries oldM newM rest (e.path :: skips)).1),
         (walkEntries oldM newM rest (e.path :: skips)).2)
      else
        ((e :: (walkEntries oldM newM rest skips).1), (walkEntries oldM newM rest skips).2))
    else if ".go".toList.isSuffixOf e.path = false then
      ((e :: (walkEntries oldM newM rest skips).1), (walkEntries oldM newM rest skips).2)
    else if baseName e.path = "go.mod".toList then
      ((e :: (walkEntries oldM newM rest skips).1), (walkEntries oldM newM rest skips).2)
    else
      match updateImportPathsInFile oldM newM e with
      | Except.ok e2 =>
        ((e2 :: (walkEntries oldM newM rest skips).1), (walkEntries oldM newM rest skips).2)
      | Except.error msg =>
        ((e :: (walkEntries oldM newM rest skips).1),
         ("Warning: failed to update import paths in ".toList ++ e.path ++
            ": ".toList ++ msg) :: (walkEntries oldM newM rest skips).2)

/-- An ASCII apostrophe, as used in the precondition error message. -/
def apos : Char := Char.ofNat 39

/-- `updateImportPaths` from `layered.go`: the two safety checks, then the
walk.  The result carries the outcome, the (possibly rewritten) entries and
the warnings. -/
def updateImportPaths (oldM newM : List Char) (tree : List WalkEntry) :
    Except (List Char) Unit × List WalkEntry × List (List Char) :=
  if oldM = newM then
    (Except.error ("oldModule and newModule are the same: ".toList ++ oldM), tree, [])
  else if oldM = [] ∨ newM = [] then
    (Except.error ("oldModule and newModule must not be empty (old: ".toList ++
       [apos] ++ oldM ++ [apos] ++ ", new: ".toList ++ [apos] ++ newM ++ [apos, ')']), tree, [])
  else
    (Except.ok (), (walkEntries oldM newM tree []).1, (walkEntries oldM newM tree []).2)

/-- A regular, healthy `.go` source file as seen by the walk. -/
def plainGoFile (e : WalkEntry) : Prop :=
  e.isDir = false ∧ ".go".toList.isSuffixOf e.path = true ∧
  baseName e.path ≠ "go.mod".toList ∧ e.readErr = false ∧ e.writeErr = false

instance (e : WalkEntry) : Decidable (plainGoFile e) := by
  unfold plainGoFile; infer_instance

/-- The per-file rewrite applied by a successful `updateImportPathsInFile`. -/
def rewriteEntry (oldM newM : List Char) (e : WalkEntry) : WalkEntry :=
  { e with content := replaceImportPaths e.content oldM newM }

theorem updateFile_ok (oldM newM : List Char) (e : WalkEntry) (h : plainGoFile e) :
    updateImportPathsInFile oldM newM e = Except.ok (rewriteEntry oldM newM e) := by
  obtain ⟨_, _, _, h4, h5⟩ := h
  by_cases hc : replaceImportPaths e.content oldM newM ≠ e.content
  · simp [updateImportPathsInFile, h4, h5, hc, rewriteEntry]
  · push_neg at hc
    simp only [updateImportPathsInFile, h4, Bool.false_eq_true, if_false, hc]
    simp [rewriteEntry, hc]

theorem walkEntries_cons_file (oldM newM : List Char) (e : WalkEntry)
    (rest : List WalkEntry)
    (h1 : e.isDir = false) (h2 : ".go".toList.isSuffixOf e.path = true)
    (h3 : baseName e.path ≠ "go.mod".toList) :
    walkEntries oldM newM (e :: rest) [] =
      (match updateImportPathsInFile oldM newM e with
      | Except.ok e2 =>
        ((e2 :: (walkEntries oldM newM rest []).1), (walkEntries oldM newM rest []).2)
      | Except.error msg =>
        ((e :: (walkEntries oldM newM rest []).1),
         ("Warning: failed to update import paths in ".toList ++ e.path ++
            ": ".toList ++ msg) :: (walkEntries oldM newM rest []).2)) := by
  rw [walkEntries]
  rw [if_neg (by simp [underSkipped]), if_neg (by rw [h1]; simp),
    if_neg (by rw [h2]; simp), if_neg h3]

theorem walkEntries_append_plain (oldM newM : List Char) (pre rest : List WalkEntry)
    (h : ∀ e ∈ pre, plainGoFile e) :
    walkEntries oldM newM (pre ++ rest) [] =
      (pre.map (rewriteEntry oldM newM) ++ (walkEntries oldM newM rest []).1,
       (walkEntries oldM newM rest []).2) := by
  induction pre with
  | nil => simp
  | cons e tail ih =>
    obtain ⟨h1, h2, h3, _, _⟩ := h e (List.mem_cons_self _ _)
    rw [List.cons_append, walkEntries_cons_file oldM newM e _ h1 h2 h3,
      updateFile_ok oldM newM e (h e (List.mem_cons_self _ _)),
      ih (fun x hx => h x (List.mem_cons_of_mem e hx))]
    simp

/-! ## Claim C4 -/

/-- C4: in a tree of plain `.go` files where exactly one file's per-file
update fails (read or write), `updateImportPaths` records that failure as a
single warning, rewrites every other file, and returns no fatal error. -/
theorem updateImportPaths_fault_isolation (oldM newM : List Char)
    (pre post : List WalkEntry) (bad : WalkEntry) (msg : List Char)
    (hne : oldM ≠ newM) (ho : oldM ≠ []) (hn : newM ≠ [])
    (hpre : ∀ e ∈ pre, plainGoFile e) (hpost : ∀ e ∈ post, plainGoFile e)
    (hbdir : bad.isDir = false) (hbgo : ".go".toList.isSuffixOf bad.path = true)
    (hbmod : baseName bad.path ≠ "go.mod".toList)
    (hfail : updateImportPathsInFile oldM newM bad = Except.error msg) :
    updateImportPaths oldM newM (pre ++ bad :: post) =
      (Except.ok (),
       pre.map (rewriteEntry oldM newM) ++ bad :: post.map (rewriteEntry oldM newM),
       ["Warning: failed to update import paths in ".toList ++ bad.path ++
          ": ".toList ++ msg]) := by
  unfold updateImportPaths
  rw [if_neg hne, if_neg (by rintro (h | h); exacts [ho h, hn h])]
  rw [walkEntries_append_plain oldM newM pre _ hpre,
    walkEntries_cons_file oldM newM bad post hbdir hbgo hbmod, hfail]
  have hpost2 := walkEntries_append_plain oldM newM post [] hpost
  rw [List.append_nil] at hpost2
  rw [hpost2]
  simp [walkEntries]

/-- Witness for C4: three files, the middle one unreadable. -/
theorem updateImportPaths_fault_isolation_witness :
    updateImportPaths "a/b".toList "x/y".toList
      [⟨"p/m1.go".toList, false, false, false, "import \"a/b\"".toList⟩,
       ⟨"p/m2.go".toList, false, true, false, "import \"a/b\"".toList⟩,
       ⟨"p/m3.go".toList, false, false, false, "import \"a/b/sub\"".toList⟩] =
      (Except.ok (),
       [⟨"p/m1.go".toList, false, false, false, "import \"a/b\"".toList⟩].map
           (rewriteEntry "a/b".toList "x/y".toList) ++
         ⟨"p/m2.go".toList, false, true, false, "import \"a/b\"".toList⟩ ::
         [⟨"p/m3.go".toList, false, false, false, "import \"a/b/sub\"".toList⟩].map
           (rewriteEntry "a/b".toList "x/y".toList),
       ["Warning: failed to update import paths in ".toList ++ "p/m2.go".toList ++
          ": ".toList ++ "failed to read file".toList]) :=
  updateImportPaths_fault_isolation "a/b".toList "x/y".toList
    [⟨"p/m1.go".toList, false, false, false, "import \"a/b\"".toList⟩]
    [⟨"p/m3.go".toList, false, false, false, "import \"a/b/sub\"".toList⟩]
    ⟨"p/m2.go".toList, false, true, false, "import \"a/b\"".toList⟩
    "failed to read file".toList
    (by decide) (by decide) (by decide) (by decide) (by decide)
    (by decide) (by decide) (by decide) rfl

/-! ## Claim C6 -/

/-- C6: identical or empty identities make `updateImportPaths` fail
immediately — the tree is untouched, no warnings are emitted, and the error
message names the offending identities. -/
theorem updateImportPaths_invariant_violation (oldM newM : List Char)
    (tree : List WalkEntry)
    (h : oldM = newM ∨ oldM = [] ∨ newM = []) :
    (updateImportPaths oldM newM tree).2.1 = tree ∧
    (updateImportPaths oldM newM tree).2.2 = [] ∧
    (oldM = newM →
      (updateImportPaths oldM newM tree).1 =
        Except.error ("oldModule and newModule are the same: ".toList ++ oldM)) ∧
    (oldM ≠ newM →
      (updateImportPaths oldM newM tree).1 =
        Except.error ("oldModule and newModule must not be empty (old: ".toList ++
          [apos] ++ oldM ++ [apos] ++ ", new: ".toList ++ [apos] ++ newM ++ [apos, ')'])) := by
  by_cases he : oldM = newM
  · refine ⟨by simp [updateImportPaths, he], by simp [updateImportPaths, he],
      fun _ => by simp [updateImportPaths, he], fun hne => absurd he hne⟩
  · have h2 : oldM = [] ∨ newM = [] := by
      rcases h with h | h
      · exact absurd h he
      · exact h
    exact ⟨by simp [updateImportPaths, he, h2], by simp [updateImportPaths, he, h2],
      fun heq => absurd heq he, fun _ => by simp [updateImportPaths, he, h2]⟩

/-- Witness for C6 with equal identities over a non-empty tree. -/
theorem updateImportPaths_invariant_violation_witness :
    (updateImportPaths "a/b".toList "a/b".toList
        [⟨"p/m1.go".toList, false, false, false, "import \"a/b\"".toList⟩]).2.1 =
      [⟨"p/m1.go".toList, false, false, false, "import \"a/b\"".toList⟩] ∧
    (updateImportPaths "a/b".toList "a/b".toList
        [⟨"p/m1.go".toList, false, false, false, "import \"a/b\"".toList⟩]).2.2 = [] ∧
    (updateImportPaths "a/b".toList "a/b".toList
        [⟨"p/m1.go".toList, false, false, false, "import \"a/b\"".toList⟩]).1 =
      Except.error ("oldModule and newModule are the same: ".toList ++ "a/b".toList) := by
  obtain ⟨e1, e2, e3, _⟩ := updateImportPaths_invariant_violation "a/b".toList "a/b".toList
    [⟨"p/m1.go".toList, false, false, false, "import \"a/b\"".toList⟩] (Or.inl rfl)
  exact ⟨e1, e2, e3 rfl⟩

/-! ## CacheStore: source embedding of `internal/cache` (part_003)

Time is `Int` nanoseconds; `time.Since(t)` at instant `now` is `now - t`.
The persisted metadata document is either absent, present but unparsable
JSON, or a parsed entry table. -/

/-- `TemplateCacheInfo` from the cache package. -/
structure CacheInfo where
  cachedAt : Int
  lastChecked : Int
  path : String
deriving DecidableEq

/-- The on-disk state of `cache-metadata.json`. -/
inductive MetaDoc where
  | missing
  | corrupt
  | parsed (templates : List (String × CacheInfo))
deriving DecidableEq

/-- `CacheTTL = 24 * time.Hour` in nanoseconds. -/
def CacheTTL : Int := 24 * 60 * 60 * 1000000000

/-- `loadMetadata`: a missing file yields an empty table; an unparsable file
is an error; otherwise the parsed table. -/
def loadMetadata : MetaDoc → Except String (List (String × CacheInfo))
  | MetaDoc.missing => Except.ok []
  | MetaDoc.corrupt => Except.error "failed to parse metadata"
  | MetaDoc.parsed ts => Except.ok ts

/-- Go map lookup `m.metadata.Templates[key]`. -/
def lookupTemplate (key : String) : List (String × CacheInfo) → Option CacheInfo
  | [] => none
  | (k, info) :: rest => if k = key then some info else lookupTemplate key rest

/-- Go map assignment `m.metadata.Templates[key] = info`. -/
def insertTemplate (key : String) (info : CacheInfo) :
    List (String × CacheInfo) → List (String × CacheInfo)
  | [] => [(key, info)]
  | (k, i) :: rest =>
    if k = key then (k, info) :: rest else (k, i) :: insertTemplate key info rest

/-- `GetTemplateCachePath`: `filepath.Join(cacheDir, key)`. -/
def getTemplateCachePath (cacheDir key : String) : String := cacheDir ++ "/" ++ key

/-- `IsCached` from the cache package: false whenever `loadMetadata` fails
or no entry exists; otherwise `time.Since(info.CachedAt) < CacheTTL`. -/
def IsCached (doc : MetaDoc) (now : Int) (key : String) : Bool :=
  match loadMetadata doc with
  | Except.error _ => false
  | Except.ok ts =>
    match lookupTemplate key ts with
    | none => false
    | some info => decide (now - info.cachedAt < CacheTTL)

/-- The entry the cache effectively holds for a key: none when the document
is missing, unparsable, or has no entry. -/
def metaEntry (doc : MetaDoc) (key : String) : Option CacheInfo :=
  match loadMetadata doc with
  | Except.error _ => none
  | Except.ok ts => lookupTemplate key ts

/-- `UpdateCacheTime` from the cache package: reload, upsert
`{cachedAt = lastChecked = now, path = derive(key)}`, save the whole
document (the save itself is modelled as succeeding). -/
def UpdateCacheTime (cacheDir : String) (doc : MetaDoc) (now : Int) (key : String) :
    Except String MetaDoc :=
  match loadMetadata doc with
  | Except.error e => Except.error ("failed to load metadata: " ++ e)
  | Except.ok ts =>
    Except.ok (MetaDoc.parsed
      (insertTemplate key ⟨now, now, getTemplateCachePath cacheDir key⟩ ts))

theorem lookupTemplate_insert (key : String) (info : CacheInfo) :
    ∀ (ts : List (String × CacheInfo)),
      lookupTemplate key (insertTemplate key info ts) = some info := by
  intro ts
  induction ts with
  | nil => simp [insertTemplate, lookupTemplate]
  | cons p rest ih =>
    obtain ⟨k, i⟩ := p
    by_cases hk : k = key
    · rw [insertTemplate, if_pos hk, lookupTemplate, if_pos hk]
    · rw [insertTemplate, if_neg hk, lookupTemplate, if_neg hk, ih]

/-! ## Claim C2 -/

/-- C2: `IsCached` is true iff an entry exists and `now - cachedAt < 24h`;
for an entry touched at `T`, every query strictly before `T + 24h` is fresh
and every query at or after `T + 24h` is stale. -/
theorem isCached_iff_fresh (cacheDir : String) (doc : MetaDoc) (now T : Int)
    (key : String) (newDoc : MetaDoc)
    (htouch : UpdateCacheTime cacheDir doc T key = Except.ok newDoc) :
    (IsCached doc now key = true ↔
      ∃ info, metaEntry doc key = some info ∧ now - info.cachedAt < CacheTTL) ∧
    (∀ q : Int, q < T + CacheTTL → IsCached newDoc q key = true) ∧
    (∀ q : Int, T + CacheTTL ≤ q → IsCached newDoc q key = false) := by
  have hdoc : ∃ ts, loadMetadata doc = Except.ok ts ∧
      newDoc = MetaDoc.parsed
        (insertTemplate key ⟨T, T, getTemplateCachePath cacheDir key⟩ ts) := by
    cases doc with
    | missing => exact ⟨[], rfl, by simpa [UpdateCacheTime, loadMetadata] using htouch.symm⟩
    | corrupt => simp [UpdateCacheTime, loadMetadata] at htouch
    | parsed ts => exact ⟨ts, rfl, by simpa [UpdateCacheTime, loadMetadata] using htouch.symm⟩
  obtain ⟨ts, hts, hnew⟩ := hdoc
  refine ⟨?_, ?_, ?_⟩
  · rw [IsCached, metaEntry, hts]
    cases hl : lookupTemplate key ts with
    | none => simp [hl]
    | some info => simp [hl]
  · intro q hq
    rw [hnew]
    simp only [IsCached, loadMetadata, lookupTemplate_insert, decide_eq_true_eq]
    simp only [CacheTTL] at hq ⊢
    omega
  · intro q hq
    rw [hnew]
    simp only [IsCached, loadMetadata, lookupTemplate_insert,
      decide_eq_false_iff_not]
    simp only [CacheTTL] at hq ⊢
    omega

/-- Witness for C2 at the freshness boundary: touched at `T = 0`, fresh at
`23h59m59s`, stale at exactly `24h`. -/
theorem isCached_iff_fresh_witness :
    IsCached (MetaDoc.parsed
      (insertTemplate "layered" ⟨0, 0, getTemplateCachePath "cache" "layered"⟩ []))
      86399000000000 "layered" = true ∧
    IsCached (MetaDoc.parsed
      (insertTemplate "layered" ⟨0, 0, getTemplateCachePath "cache" "layered"⟩ []))
      86400000000000 "layered" = false := by
  obtain ⟨_, h2, h3⟩ := isCached_iff_fresh "cache" MetaDoc.missing 0 0 "layered"
    (MetaDoc.parsed
      (insertTemplate "layered" ⟨0, 0, getTemplateCachePath "cache" "layered"⟩ [])) rfl
  exact ⟨h2 86399000000000 (by decide), h3 86400000000000 (by decide)⟩

/-! ## Claim C7 -/

/-- C7 counterexample: the claim says `Touch`/`UpdateCacheTime` degrades to
an empty entry set instead of returning an error on an unparsable metadata
document, but `UpdateCacheTime` propagates the load failure as an error. -/
theorem updateCacheTime_corrupt_errors :
    UpdateCacheTime "cache" MetaDoc.corrupt 0 "layered" =
      Except.error "failed to load metadata: failed to parse metadata" := rfl

/-- C7 amended: `IsCached` never fails and answers "not fresh" for a missing
or unparsable document; `UpdateCacheTime` degrades to an empty entry set for
a missing document, but returns an error for an unparsable one. -/
theorem cacheStore_fail_open (cacheDir key : String) (now : Int) :
    IsCached MetaDoc.missing now key = false ∧
    IsCached MetaDoc.corrupt now key = false ∧
    UpdateCacheTime cacheDir MetaDoc.missing now key =
      Except.ok (MetaDoc.parsed
        [(key, ⟨now, now, getTemplateCachePath cacheDir key⟩)]) ∧
    UpdateCacheTime cacheDir MetaDoc.corrupt now key =
      Except.error "failed to load metadata: failed to parse metadata" :=
  ⟨rfl, rfl, rfl, rfl⟩

/-! ## TemplateProvider: source embedding of the template manager

The filesystem and git are modelled by an explicit state (metadata document
plus the set of existing template storage directories) and an environment
fixing the outcomes of `git clone` and `os.RemoveAll`.  Each operation also
returns the ordered log of externally visible fetch events. -/

inductive FetchEv where
  | pullAttempt
  | removeDir
  | clone
  | touch
deriving DecidableEq

/-- The cache-relevant filesystem state. -/
structure TemplateFS where
  doc : MetaDoc
  dirs : List String
deriving DecidableEq

/-- Outcomes of the external commands: `none` means success. -/
structure GitEnv where
  cloneErr : Option String
  removeErr : Option String
deriving DecidableEq

/-- The architecture keys of `getDefaultTemplates`. -/
def templateKeys : List String := ["layered", "modular", "hexagonal"]

/-- `GetTemplate`: succeeds exactly for registered architecture types. -/
def getTemplate (key : String) : Except String Unit :=
  if key ∈ templateKeys then Except.ok ()
  else Except.error
    ("failed to get template: template not found for architecture type: " ++ key)

/-- `cloneTemplate`: a shallow `git clone` into the storage directory;
on success the directory exists afterwards. -/
def cloneTemplate (env : GitEnv) (st : TemplateFS) (key : String) :
    Except String TemplateFS × List FetchEv :=
  match env.cloneErr with
  | some e => (Except.error ("failed to clone repository: " ++ e), [FetchEv.clone])
  | none => (Except.ok { st with dirs := key :: st.dirs }, [FetchEv.clone])

/-- `UpdateTemplate` from the template manager: if the storage directory
exists, the pull attempt (which always fails with "pull not supported,
please re-clone") leads to removing the directory and cloning fresh;
otherwise clone directly; `UpdateCacheTime` runs only after a successful
clone. -/
def UpdateTemplate (env : GitEnv) (cacheDir : String) (now : Int)
    (st : TemplateFS) (key : String) : Except String TemplateFS × List FetchEv :=
  match getTemplate key with
  | Except.error e => (Except.error e, [])
  | Except.ok _ =>
    match
      (if key ∈ st.dirs then
        match env.removeErr with
        | some e =>
          (Except.error ("failed to remove old cache: " ++ e), [FetchEv.pullAttempt])
        | none =>
          ((cloneTemplate env { st with dirs := st.dirs.erase key } key).1,
           FetchEv.pullAttempt :: FetchEv.removeDir ::
             (cloneTemplate env { st with dirs := st.dirs.erase key } key).2)
      else cloneTemplate env st key) with
    | (Except.error e, evs) => (Except.error e, evs)
    | (Except.ok st2, evs) =>
      match UpdateCacheTime cacheDir st2.doc now key with
      | Except.error e => (Except.error e, evs)
      | Except.ok newDoc => (Except.ok { st2 with doc := newDoc }, evs ++ [FetchEv.touch])

/-- `EnsureTemplateCached`: no-op when the cache is fresh, else fetch. -/
def EnsureTemplateCached (env : GitEnv) (cacheDir : String) (now : Int)
    (st : TemplateFS) (key : String) : Except String TemplateFS × List FetchEv :=
  if IsCached st.doc now key then (Except.ok st, [])
  else UpdateTemplate env cacheDir now st key

/-! ## Claim C3 -/

/-- C3: when the cache is fresh, `EnsureTemplateCached` is a no-op with no
events; otherwise, on the path where the storage directory exists, the
always-failing pull is followed by directory removal and a fresh clone, a
failed clone propagates with no touch, the timestamp is touched only when
the clone succeeded, and on full success the metadata is updated after the
clone. -/
theorem ensureTemplateCached_spec (env : GitEnv) (cacheDir : String) (now : Int)
    (st : TemplateFS) (key : String) :
    (IsCached st.doc now key = true →
      EnsureTemplateCached env cacheDir now st key = (Except.ok st, [])) ∧
    (IsCached st.doc now key = false → key ∈ templateKeys → key ∈ st.dirs →
      env.removeErr = none →
      (∃ rest, (EnsureTemplateCached env cacheDir now st key).2 =
        FetchEv.pullAttempt :: FetchEv.removeDir :: FetchEv.clone :: rest) ∧
      (∀ e, env.cloneErr = some e →
        EnsureTemplateCached env cacheDir now st key =
          (Except.error ("failed to clone repository: " ++ e),
           [FetchEv.pullAttempt, FetchEv.removeDir, FetchEv.clone])) ∧
      (FetchEv.touch ∈ (EnsureTemplateCached env cacheDir now st key).2 →
        env.cloneErr = none) ∧
      (env.cloneErr = none → ∀ ts, loadMetadata st.doc = Except.ok ts →
        EnsureTemplateCached env cacheDir now st key =
          (Except.ok ⟨MetaDoc.parsed (insertTemplate key
              ⟨now, now, getTemplateCachePath cacheDir key⟩ ts),
            key :: st.dirs.erase key⟩,
           [FetchEv.pullAttempt, FetchEv.removeDir, FetchEv.clone, FetchEv.touch]))) := by
  constructor
  · intro h
    simp [EnsureTemplateCached, h]
  · intro hnc hkt hkd hrm
    have hens : EnsureTemplateCached env cacheDir now st key =
        UpdateTemplate env cacheDir now st key := by
      simp [EnsureTemplateCached, hnc]
    rcases henv : env.cloneErr with _ | e
    · rcases hload : loadMetadata st.doc with e2 | ts
      · have hr : UpdateTemplate env cacheDir now st key =
            (Except.error ("failed to load metadata: " ++ e2),
             [FetchEv.pullAttempt, FetchEv.removeDir, FetchEv.clone]) := by
          simp [UpdateTemplate, getTemplate, hkt, hkd, hrm, cloneTemplate, henv,
            UpdateCacheTime, hload]
        refine ⟨⟨[], by rw [hens, hr]⟩, ?_, fun _ => rfl, ?_⟩
        · intro e2 he2
          cases he2
        · intro _ ts hts
          cases hts
      · have hr : UpdateTemplate env cacheDir now st key =
            (Except.ok ⟨MetaDoc.parsed (insertTemplate key
                ⟨now, now, getTemplateCachePath cacheDir key⟩ ts),
              key :: st.dirs.erase key⟩,
             [FetchEv.pullAttempt, FetchEv.removeDir, FetchEv.clone, FetchEv.touch]) := by
          simp [UpdateTemplate, getTemplate, hkt, hkd, hrm, cloneTemplate, henv,
            UpdateCacheTime, hload]
        refine ⟨⟨[FetchEv.touch], by rw [hens, hr]⟩, ?_, fun _ => rfl, ?_⟩
        · intro e2 he2
          cases he2
        · intro _ ts2 hts2
          cases hts2
          rw [hens, hr]
    · have hr : UpdateTemplate env cacheDir now st key =
          (Except.error ("failed to clone repository: " ++ e),
           [FetchEv.pullAttempt, FetchEv.removeDir, FetchEv.clone]) := by
        simp [UpdateTemplate, getTemplate, hkt, hkd, hrm, cloneTemplate, henv]
      refine ⟨⟨[], by rw [hens, hr]⟩, ?_, ?_, ?_⟩
      · intro e2 he2
        cases he2
        rw [hens, hr]
      · intro hmem
        rw [hens, hr] at hmem
        simp at hmem
      · intro hnone
        cases hnone

/-- Witness for C3: stale cache, existing directory, failing clone — the
fetch errors out, the log shows pull, remove, clone and no touch. -/
theorem ensureTemplateCached_spec_witness :
    EnsureTemplateCached ⟨some "network down", none⟩ "cache" 0
        ⟨MetaDoc.missing, ["layered"]⟩ "layered" =
      (Except.error ("failed to clone repository: " ++ "network down"),
       [FetchEv.pullAttempt, FetchEv.removeDir, FetchEv.clone]) :=
  ((ensureTemplateCached_spec ⟨some "network down", none⟩ "cache" 0
      ⟨MetaDoc.missing, ["layered"]⟩ "layered").2
    rfl (by decide) (by simp) rfl).2.1 "network down" rfl

/-! ## Claim C9: `buildAuthenticatedURL` -/

/-- `buildAuthenticatedURL` from the template manager. -/
def buildAuthenticatedURL (repoURL token : List Char) : List Char :=
  if token = [] then repoURL
  else
    "https://".toList ++ token ++ '@' ::
      trimPrefixL "http://".toList (trimPrefixL "https://".toList repoURL)

/-- C9 counterexample: for an `http://` remote URL the original scheme is
not preserved — the result is forced to `https://`. -/
theorem buildAuthenticatedURL_scheme_not_preserved :
    buildAuthenticatedURL "http://example.com/repo.git".toList "tok".toList =
      "https://tok@example.com/repo.git".toList ∧
    "http://".toList.isPrefixOf
      (buildAuthenticatedURL "http://example.com/repo.git".toList "tok".toList) = false := by
  constructor
  · decide
  · decide

/-- C9 amended: an empty credential leaves the URL unchanged; for an
`https://host/path` URL a non-empty credential yields
`https://<credential>@host/path` with host and path preserved (an `http`
scheme is instead upgraded to `https`). -/
theorem buildAuthenticatedURL_spec (repoURL rest token : List Char)
    (htok : token ≠ [])
    (hrest : "http://".toList.isPrefixOf rest = false) :
    buildAuthenticatedURL repoURL [] = repoURL ∧
    buildAuthenticatedURL ("https://".toList ++ rest) token =
      "https://".toList ++ token ++ '@' :: rest := by
  constructor
  · simp [buildAuthenticatedURL]
  · rw [buildAuthenticatedURL, if_neg htok]
    unfold trimPrefixL
    rw [if_pos (prefix_isPrefixOf_true (List.prefix_append _ _)), List.drop_left,
      if_neg (by rw [hrest]; simp)]

/-- Witness for C9's amended statement on the registered template remote. -/
theorem buildAuthenticatedURL_spec_witness :
    buildAuthenticatedURL "https://github.com/PickHD/go-layered-template.git".toList [] =
      "https://github.com/PickHD/go-layered-template.git".toList ∧
    buildAuthenticatedURL
        ("https://".toList ++ "github.com/PickHD/go-layered-template.git".toList)
        "tok".toList =
      "https://".toList ++ "tok".toList ++ '@' ::
        "github.com/PickHD/go-layered-template.git".toList :=
  buildAuthenticatedURL_spec "https://github.com/PickHD/go-layered-template.git".toList
    "github.com/PickHD/go-layered-template.git".toList "tok".toList
    (by decide) (by decide)
